import Mathlib

/-!
Shallow embedding of `liblipo` (fjulian79/liblipo), a LiPo battery cell
voltage monitor, translated from `src/lipo.cpp` and `src/lipo/lipo.hpp`.

Modelling conventions:
* All machine integers are `Nat` with explicit reduction `% 2^32` at every
  `uint32_t` operation where wraparound can occur.
* The fixed-size `uint32_t` arrays `Accu[LIPO_ADCCHANNELS]`,
  `VCell[LIPO_ADCCHANNELS]` and `pParam->CellScale[LIPO_ADCCHANNELS]` are
  modelled as `List Nat` of length `LIPO_ADCCHANNELS`; an out-of-bounds
  array access in the C++ source (undefined behavior) is modelled as the
  operation returning `none`.
* C unsigned division by zero is undefined behavior and is likewise
  modelled as `none`.
* The external collaborators (Arduino `analogRead`, `millis`) are passed in
  as explicit parameters: an ADC oracle `adc : Nat → Nat`, a raw reading of
  the reference channel `refRaw`, the current time `t`, and — for the
  busy-sampling loop of `calibrate` — the list of raw codes read during the
  loop (one entry per loop iteration, the iteration count being determined
  by the external clock).
-/

namespace LiPo

/-- Modulus of `uint32_t` arithmetic. -/
def U32 : Nat := 2 ^ 32

/-- Largest `uint32_t` value (`UINT32_MAX`). -/
def UINT32_MAX : Nat := U32 - 1

/-- The ADC channel cell 0 is connected to (`LIPO_ADCCHANNEL_0`, default 0). -/
def LIPO_ADCCHANNEL_0 : Nat := 0

/-- Number of used ADC channels (`LIPO_ADCCHANNELS`, default 6). -/
def LIPO_ADCCHANNELS : Nat := 6

/-- Default gate time in ms (`LIPO_DEFAULT_GATETIME`, 250). -/
def LIPO_DEFAULT_GATETIME : Nat := 250

/-- Minimum voltage in mV considered a valid cell reading (`LIPO_VCELL_MIN`, 250). -/
def LIPO_VCELL_MIN : Nat := 250

/-- Nominal internal reference voltage in mV (`LIPO_VREFINT`, 1200). -/
def LIPO_VREFINT : Nat := 1200

/-- Fixed-point denominator bit count for the cell scale factors
(`LIPO_DENOMINATOR`, 11). -/
def LIPO_DENOMINATOR : Nat := 11

/-- Modelled from the spec: the STM32 LL macro
`__LL_ADC_DIGITAL_SCALE(LL_ADC_RESOLUTION_12B)`, the full-scale digital code
of the 12-bit ADC, 4095.  The macro lives in the vendor header
`stm32yyxx_ll_adc.h`, outside this repository; the spec abstracts it as the
full-scale code of the configured resolution. -/
def ADC_DIGITAL_SCALE_12B : Nat := 4095

/-- Modelled from the spec: the STM32 LL macro
`__LL_ADC_CALC_DATA_TO_VOLTAGE(vref, data, LL_ADC_RESOLUTION_12B)`, i.e.
`data * vref / full_scale` in `uint32_t` arithmetic.  The macro lives in the
vendor header outside this repository; the spec abstracts it as
`rawCodeToMillivolts(code, referenceVoltageMv, fullScaleCode)` computing
`code * referenceVoltageMv / fullScaleCode` with integer division. -/
def LL_ADC_CALC_DATA_TO_VOLTAGE (vref data : Nat) : Nat :=
  (data * vref) % U32 / ADC_DIGITAL_SCALE_12B

/-- State of a `LiPo` object (`lipo.hpp` private members) together with the
caller-owned parameter structure `*pParam` (`BatteryParams_t`).  The members
`CellScaleDen`, `AdcChStart` and `AdcChCnt` are the compile-time constants
`LIPO_DENOMINATOR`, `LIPO_ADCCHANNEL_0` and `LIPO_ADCCHANNELS` and are kept
as the global definitions above. -/
structure LiPoState where
  /-- `pParam->CellScale`, the caller-owned per-cell scale factors. -/
  CellScale : List Nat
  /-- `GateTime : uint16_t`. -/
  GateTime : Nat
  /-- `LastTick : uint32_t`. -/
  LastTick : Nat
  /-- `SampleCnt : uint32_t`. -/
  SampleCnt : Nat
  /-- `Samples : uint32_t`. -/
  Samples : Nat
  /-- `VRefAdc : uint32_t`. -/
  VRefAdc : Nat
  /-- `Accu : uint32_t[LIPO_ADCCHANNELS]`. -/
  Accu : List Nat
  /-- `VCell : uint32_t[LIPO_ADCCHANNELS]`. -/
  VCell : List Nat
deriving DecidableEq

/-- The constructor `LiPo::LiPo(BatteryParams_t *_pParam)`: zero-initialises
all counters and `memset`s `Accu` and `VCell` to zero. -/
def mkLiPo (cellScale : List Nat) : LiPoState :=
  { CellScale := cellScale
    GateTime := LIPO_DEFAULT_GATETIME
    LastTick := 0
    SampleCnt := 0
    Samples := 0
    VRefAdc := 0
    Accu := List.replicate LIPO_ADCCHANNELS 0
    VCell := List.replicate LIPO_ADCCHANNELS 0 }

/-- Well-formedness of a state: the arrays have their declared length
`LIPO_ADCCHANNELS` and every stored `uint32_t` value is in range. -/
def wf (st : LiPoState) : Prop :=
  st.CellScale.length = LIPO_ADCCHANNELS ∧
  st.Accu.length = LIPO_ADCCHANNELS ∧
  st.VCell.length = LIPO_ADCCHANNELS ∧
  (∀ v ∈ st.VCell, v < U32) ∧
  st.SampleCnt < U32 ∧ st.LastTick < U32

instance (st : LiPoState) : Decidable (wf st) := by
  unfold wf; infer_instance

/-- Wraparound-safe `uint32_t` subtraction `a - b` as used in
`millis - LastTick`. -/
def usub32 (a b : Nat) : Nat := (U32 + a % U32 - b % U32) % U32

/-- `LiPo::updateVref`: `VRefAdc = LIPO_VREFINT * 4095 / analogRead(AVREF)`.
The division by the raw reference reading is C unsigned division: a zero
reading is undefined behavior, modelled as `none`. -/
def updateVref (refRaw : Nat) : Option Nat :=
  if refRaw = 0 then none
  else some (LIPO_VREFINT * ADC_DIGITAL_SCALE_12B / refRaw)

/-- One channel of the `LiPo::update` loop body:
`Accu[i] /= SampleCnt; VCell[i] = __LL_ADC_CALC_DATA_TO_VOLTAGE(VRefAdc, Accu[i], 12B);`
`VCell[i] = (VCell[i] * pParam->CellScale[i]) >> CellScaleDen;`
(the caller has already ruled out `sampleCnt = 0`). -/
def updateVCell (vref sampleCnt scale accu : Nat) : Nat :=
  let avg := accu / sampleCnt
  let mv := LL_ADC_CALC_DATA_TO_VOLTAGE vref avg
  ((mv * scale) % U32) >>> LIPO_DENOMINATOR

/-- `LiPo::update`: re-measure the reference, then for each channel average
the accumulator, convert to millivolts, apply the per-cell scale, and reset
the accumulator; finally latch `Samples = SampleCnt` and reset `SampleCnt`.
`Accu[i] /= SampleCnt` with `SampleCnt = 0` is undefined behavior (`none`). -/
def update (st : LiPoState) (refRaw : Nat) : Option LiPoState :=
  match updateVref refRaw with
  | none => none
  | some vref =>
    if st.SampleCnt = 0 then none
    else
      some { st with
        VRefAdc := vref
        VCell := (List.range LIPO_ADCCHANNELS).map fun i =>
          updateVCell vref st.SampleCnt (st.CellScale.getD i 0) (st.Accu.getD i 0)
        Accu := List.replicate LIPO_ADCCHANNELS 0
        Samples := st.SampleCnt
        SampleCnt := 0 }

/-- The per-call sampling step of `LiPo::task`:
`Accu[i] += analogRead(AdcChStart + i)` for every channel. -/
def sampleAccu (st : LiPoState) (adc : Nat → Nat) : List Nat :=
  (List.range LIPO_ADCCHANNELS).map fun i =>
    (st.Accu.getD i 0 + adc (LIPO_ADCCHANNEL_0 + i)) % U32

/-- `LiPo::task(uint32_t millis)`: increment `SampleCnt`, accumulate one ADC
sample per channel, and if the gate time has elapsed
(`millis - LastTick >= GateTime`, wraparound-safe) set `LastTick = millis`,
run `update` and report new data. -/
def task (st : LiPoState) (t : Nat) (adc : Nat → Nat) (refRaw : Nat) :
    Option (Bool × LiPoState) :=
  let st1 := { st with
    SampleCnt := (st.SampleCnt + 1) % U32
    Accu := sampleAccu st adc }
  if st.GateTime ≤ usub32 t st.LastTick then
    match update { st1 with LastTick := t % U32 } refRaw with
    | none => none
    | some st2 => some (true, st2)
  else
    some (false, st1)

/-- `LiPo::getCell(uint8_t cell, bool abs)`.  The source checks
`cell == 0 || abs` BEFORE the range check `cell >= AdcChCnt`, so the read
`VCell[cell]` in the first branch is out of bounds (undefined behavior,
modelled as `none`) whenever `abs` is set and `cell ≥ LIPO_ADCCHANNELS`. -/
def getCell (st : LiPoState) (cell : Nat) (absolute : Bool) : Option Nat :=
  if cell = 0 ∨ absolute = true then
    st.VCell[cell]?
  else if LIPO_ADCCHANNELS ≤ cell then
    some 0
  else
    match st.VCell[cell]?, st.VCell[cell - 1]? with
    | some a, some b => some (if b ≤ a then a - b else 0)
    | _, _ => none

/-- Loop of `LiPo::getNumCells` over the remaining channel indices, carrying
the `cells` counter and the `done` flag. -/
def numCellsLoop (st : LiPoState) : List Nat → Int → Bool → Option Int
  | [], cells, _ => some cells
  | i :: rest, cells, done =>
    match getCell st i false with
    | none => none
    | some v =>
      if LIPO_VCELL_MIN ≤ v then
        if done = false then numCellsLoop st rest (cells + 1) done
        else some (-1)
      else numCellsLoop st rest cells true

/-- `LiPo::getNumCells`: scan all channels from 0, count the leading valid
cells, and return `-1` as soon as a valid reading follows an invalid one. -/
def getNumCells (st : LiPoState) : Option Int :=
  numCellsLoop st (List.range LIPO_ADCCHANNELS) 0 false

/-- Loop of `LiPo::getMinCell` over the detected cells, carrying `volt`. -/
def minCellLoop (st : LiPoState) : List Nat → Nat → Option Nat
  | [], volt => some volt
  | i :: rest, volt =>
    match getCell st i false with
    | none => none
    | some v =>
      minCellLoop st rest (if LIPO_VCELL_MIN ≤ v then min volt v else volt)

/-- `LiPo::getMinCell`: if `getNumCells() > 0`, scan the detected cells
starting from `volt = UINT32_MAX` and keep the minimum of the readings that
pass the threshold; otherwise return 0. -/
def getMinCell (st : LiPoState) : Option Nat :=
  match getNumCells st with
  | none => none
  | some cells =>
    if 0 < cells then minCellLoop st (List.range cells.toNat) UINT32_MAX
    else some 0

/-- `LiPo::getSamples`: returns `Samples` truncated to `uint16_t`. -/
def getSamples (st : LiPoState) : Nat := st.Samples % 2 ^ 16

/-- `LiPo::getVref`: returns `VRefAdc`. -/
def getVref (st : LiPoState) : Nat := st.VRefAdc

/-- The raw accumulator left by the busy-sampling loop of `LiPo::calibrate`:
`Accu[cell] += analogRead(AdcChStart + cell)` once per iteration, in
`uint32_t` arithmetic. -/
def calAccu (samples : List Nat) : Nat :=
  samples.foldl (fun a s => (a + s) % U32) 0

/-- The measured voltage of the calibrated cell in mV: the busy-sampled
average converted with the freshly measured reference voltage and no scale
factor applied (`__LL_ADC_CALC_DATA_TO_VOLTAGE(VRefAdc, Accu[cell]/SampleCnt, 12B)`). -/
def measuredMv (refRaw : Nat) (samples : List Nat) : Nat :=
  LL_ADC_CALC_DATA_TO_VOLTAGE (LIPO_VREFINT * ADC_DIGITAL_SCALE_12B / refRaw)
    (calAccu samples / (samples.length % U32))

/-- `LiPo::calibrate(uint8_t cell, uint32_t voltage)`.  `samples` is the
list of raw ADC codes read by the busy loop (its length is the loop's
`SampleCnt`), `refRaw` the raw reading of the reference channel, `tEnd` the
`millis()` value at completion.  Undefined behavior is modelled as `none`:
the out-of-bounds accesses `Accu[cell]`/`CellScale[cell]` when
`cell ≥ LIPO_ADCCHANNELS`, the division `Accu[cell] /= SampleCnt` when the
loop ran zero times, and the division `voltage / Accu[cell]` when the
measured voltage is zero (the source has no guard for any of these).
The C function always returns 0, so only the state is modelled. -/
def calibrate (st : LiPoState) (cell voltage refRaw : Nat)
    (samples : List Nat) (tEnd : Nat) : Option LiPoState :=
  match updateVref refRaw with
  | none => none
  | some vref =>
    if LIPO_ADCCHANNELS ≤ cell then none
    else
      let accu := calAccu samples
      let cnt := samples.length % U32
      let voltage2 := ((voltage % U32) <<< LIPO_DENOMINATOR) % U32
      if cnt = 0 then none
      else
        let mv := LL_ADC_CALC_DATA_TO_VOLTAGE vref (accu / cnt)
        if mv = 0 then none
        else
          some { st with
            VRefAdc := vref
            CellScale := st.CellScale.set cell (voltage2 / mv)
            Accu := List.replicate LIPO_ADCCHANNELS 0
            SampleCnt := 0
            LastTick := tEnd % U32 }

/-- `LiPo::setGateTime(uint16_t millis)`. -/
def setGateTime (st : LiPoState) (ms : Nat) : LiPoState :=
  { st with GateTime := ms % 2 ^ 16 }

/-! ### Concrete states used for witnesses and counterexamples -/

/-- An ADC oracle that always reads 0. -/
def adc0 : Nat → Nat := fun _ => 0

/-- A freshly constructed monitor with all cell scale factors 2048. -/
def initSt6 : LiPoState := mkLiPo (List.replicate LIPO_ADCCHANNELS 2048)

/-- A monitor whose last finalized cumulative voltages describe a healthy
3-cell pack: `VCell = [1000, 1900, 2800, 0, 0, 0]`. -/
def exSt : LiPoState := { initSt6 with VCell := [1000, 1900, 2800, 0, 0, 0] }

/-- A monitor one sample into a window, every accumulator holding the raw
code 2048: the literal round-trip input of the spec. -/
def refSt : LiPoState :=
  { initSt6 with Accu := List.replicate LIPO_ADCCHANNELS 2048, SampleCnt := 1 }

/-! ### Derived per-cell voltage -/

/-- The per-cell (relative) voltage `getCell(i, false)` computes for a valid
channel index: channel 0 reads directly, higher channels read the
difference of adjacent cumulative voltages, clamped to 0 when negative. -/
def vcellRel (st : LiPoState) (i : Nat) : Nat :=
  if i = 0 then st.VCell.getD 0 0
  else if st.VCell.getD (i - 1) 0 ≤ st.VCell.getD i 0 then
    st.VCell.getD i 0 - st.VCell.getD (i - 1) 0
  else 0

/-- On a well-formed state, `getCell` at a valid index with `absolute =
false` returns exactly the derived per-cell voltage. -/
theorem getCell_rel (st : LiPoState) (hwf : wf st) (i : Nat)
    (hi : i < LIPO_ADCCHANNELS) :
    getCell st i false = some (vcellRel st i) := by
  obtain ⟨-, -, hvc, -, -, -⟩ := hwf
  have h1 : i < st.VCell.length := hvc ▸ hi
  by_cases h0 : i = 0
  · subst h0
    simp [getCell, vcellRel, List.getElem?_eq_getElem h1,
      List.getD_eq_getElem _ _ h1]
  · have h2 : i - 1 < st.VCell.length := by omega
    simp only [getCell]
    rw [if_neg (by simp [h0]), if_neg (by omega)]
    rw [List.getElem?_eq_getElem h1, List.getElem?_eq_getElem h2]
    simp [vcellRel, h0, List.getD, List.getElem?_eq_getElem h1,
      List.getElem?_eq_getElem h2]

/-! ### Claim theorems -/

/-- Claim C6: for every channel index `i` with `0 < i < channelCount`,
`getCell(i, false)` returns `cumulativeVoltage[i] - cumulativeVoltage[i-1]`
when that difference is non-negative and 0 otherwise; for every valid index
`i`, `getCell(i, true)` returns `cumulativeVoltage[i]` exactly, as does
`getCell(0)` regardless of the absolute flag. -/
theorem getCell_spec (st : LiPoState) (hwf : wf st) :
    (∀ i, 0 < i → i < LIPO_ADCCHANNELS →
      getCell st i false =
        some (if st.VCell.getD (i - 1) 0 ≤ st.VCell.getD i 0 then
          st.VCell.getD i 0 - st.VCell.getD (i - 1) 0 else 0)) ∧
    (∀ i, i < LIPO_ADCCHANNELS → getCell st i true = some (st.VCell.getD i 0)) ∧
    (∀ absolute : Bool, getCell st 0 absolute = some (st.VCell.getD 0 0)) := by
  have hvc : st.VCell.length = LIPO_ADCCHANNELS := hwf.2.2.1
  refine ⟨fun i hi0 hi6 => ?_, fun i hi6 => ?_, fun absolute => ?_⟩
  · rw [getCell_rel st hwf i hi6]
    simp [vcellRel, Nat.pos_iff_ne_zero.mp hi0]
  · have h1 : i < st.VCell.length := hvc ▸ hi6
    simp [getCell, List.getElem?_eq_getElem h1, List.getD_eq_getElem _ _ h1]
  · have h1 : 0 < st.VCell.length := by rw [hvc]; decide
    simp [getCell, List.getElem?_eq_getElem h1, List.getD_eq_getElem _ _ h1]

/-- Claim C6 witness: instantiation on the healthy 3-cell state. -/
theorem getCell_spec_witness :
    getCell exSt 1 false = some 900 ∧ getCell exSt 1 true = some 1900 ∧
    getCell exSt 0 true = some 1000 := by
  have h := getCell_spec exSt (by decide)
  refine ⟨?_, ?_, ?_⟩
  · rw [h.1 1 (by decide) (by decide)]; decide
  · rw [h.2.1 1 (by decide)]; decide
  · rw [h.2.2 true]; decide

/-- Claim C1 (the source violates it): `getCell` checks `cell == 0 || abs`
BEFORE the range check, so `getCell(6, true)` reads `VCell[6]` out of
bounds (undefined behavior, `none` in the model) instead of returning 0,
and `calibrate(6, v)` accesses `Accu[6]` and `CellScale[6]` out of bounds
(also `none`); only the `abs = false` path returns the defined 0. -/
theorem getCell_calibrate_out_of_range_ub :
    getCell exSt 6 false = some 0 ∧ getCell exSt 6 true = none ∧
    calibrate exSt 6 4200 4095 [2048] 300 = none := by
  refine ⟨by decide, by decide, by decide⟩

/-- Claim C2 (the source violates it): `calibrate` computes
`pParam->CellScale[cell] = voltage / Accu[cell]` with no guard, so a zero
measured voltage (here: every busy-loop sample reads 0) reaches the
division by zero — undefined behavior, `none` in the model — rather than
being detected and aborted. -/
theorem calibrate_zero_measured_div :
    calibrate initSt6 0 4200 4095 [0, 0, 0] 300 = none := by decide

/-- Claim C3: `task(t)` reports new data if and only if
`t - LastTick >= GateTime` under wraparound-safe unsigned 32-bit
subtraction; at the boundary it sets `LastTick = t`, latches the window's
sample count into `Samples` and resets `SampleCnt` to 0, and before the
boundary it leaves `LastTick` and `Samples` alone and only counts the
sample.  (The side conditions exclude the undefined behaviors of a zero
reference reading and a wrapped-to-zero sample counter.) -/
theorem task_spec (st : LiPoState) (t : Nat) (adc : Nat → Nat) (refRaw : Nat)
    (ht : t < U32) (hr : refRaw ≠ 0) (hs : (st.SampleCnt + 1) % U32 ≠ 0) :
    ∃ b st', task st t adc refRaw = some (b, st') ∧
      (b = true ↔ st.GateTime ≤ usub32 t st.LastTick) ∧
      (b = true → st'.LastTick = t ∧ st'.Samples = (st.SampleCnt + 1) % U32 ∧
        st'.SampleCnt = 0) ∧
      (b = false → st'.LastTick = st.LastTick ∧
        st'.SampleCnt = (st.SampleCnt + 1) % U32 ∧ st'.Samples = st.Samples) := by
  by_cases hg : st.GateTime ≤ usub32 t st.LastTick
  · refine ⟨true,
      { st with
          LastTick := t % U32
          SampleCnt := 0
          Samples := (st.SampleCnt + 1) % U32
          VRefAdc := LIPO_VREFINT * ADC_DIGITAL_SCALE_12B / refRaw
          Accu := List.replicate LIPO_ADCCHANNELS 0
          VCell := (List.range LIPO_ADCCHANNELS).map fun i =>
            updateVCell (LIPO_VREFINT * ADC_DIGITAL_SCALE_12B / refRaw)
              ((st.SampleCnt + 1) % U32) (st.CellScale.getD i 0)
              ((sampleAccu st adc).getD i 0) },
      ?_, by simp [hg], fun _ => ⟨Nat.mod_eq_of_lt ht, rfl, rfl⟩, by simp⟩
    simp only [task, update, updateVref, if_pos hg, if_neg hr, if_neg hs]
  · exact ⟨false,
      { st with SampleCnt := (st.SampleCnt + 1) % U32, Accu := sampleAccu st adc },
      by simp only [task, if_neg hg], by simp [hg], by simp,
      fun _ => ⟨rfl, rfl, rfl⟩⟩

/-- Claim C3 witness: on a fresh monitor at `t = 250` the gate fires. -/
theorem task_spec_witness :
    ∃ st', task initSt6 250 adc0 4095 = some (true, st') ∧
      st'.LastTick = 250 ∧ st'.Samples = 1 ∧ st'.SampleCnt = 0 := by
  obtain ⟨b, st', heq, hiff, htrue, -⟩ :=
    task_spec initSt6 250 adc0 4095 (by decide) (by decide) (by decide)
  have hb : b = true := hiff.mpr (by decide)
  subst hb
  obtain ⟨h1, h2, h3⟩ := htrue rfl
  exact ⟨st', heq, h1, by rw [h2]; decide, h3⟩

/-- Claim C4: at window finalize, each stored cumulative voltage equals
`(((refVoltage_mV * (Accu[i] / SampleCnt)) / FullScaleCode) * CellScale[i])
>>> LIPO_DENOMINATOR` with integer division throughout (the overflow-freedom
hypotheses make the `uint32_t` reductions vanish), the accumulators are
reset to 0 afterwards, and on the spec's literal inputs (reference raw 4095
giving 1200 mV, raw average 2048, scale 2048, denominator 2^11) every
channel stores 600 mV. -/
theorem update_formula (st : LiPoState) (refRaw : Nat)
    (h0 : st.SampleCnt ≠ 0) (hr : refRaw ≠ 0)
    (hov : ∀ i, i < LIPO_ADCCHANNELS →
      (st.Accu.getD i 0 / st.SampleCnt) *
        (LIPO_VREFINT * ADC_DIGITAL_SCALE_12B / refRaw) < U32 ∧
      ((LIPO_VREFINT * ADC_DIGITAL_SCALE_12B / refRaw) *
          (st.Accu.getD i 0 / st.SampleCnt) / ADC_DIGITAL_SCALE_12B) *
        st.CellScale.getD i 0 < U32) :
    (∃ st', update st refRaw = some st' ∧
      (∀ i, i < LIPO_ADCCHANNELS → st'.VCell.getD i 0 =
        (((LIPO_VREFINT * ADC_DIGITAL_SCALE_12B / refRaw) *
            (st.Accu.getD i 0 / st.SampleCnt) / ADC_DIGITAL_SCALE_12B) *
          st.CellScale.getD i 0) >>> LIPO_DENOMINATOR) ∧
      st'.Accu = List.replicate LIPO_ADCCHANNELS 0) ∧
    (∃ stL, update refSt 4095 = some stL ∧
      stL.VCell = List.replicate LIPO_ADCCHANNELS 600) := by
  constructor
  · refine ⟨{ st with
        VRefAdc := LIPO_VREFINT * ADC_DIGITAL_SCALE_12B / refRaw
        VCell := (List.range LIPO_ADCCHANNELS).map fun i =>
          updateVCell (LIPO_VREFINT * ADC_DIGITAL_SCALE_12B / refRaw)
            st.SampleCnt (st.CellScale.getD i 0) (st.Accu.getD i 0)
        Accu := List.replicate LIPO_ADCCHANNELS 0
        Samples := st.SampleCnt
        SampleCnt := 0 },
      by simp only [update, updateVref, if_neg hr, if_neg h0], ?_, rfl⟩
    intro i hi
    have hlen : i < ((List.range LIPO_ADCCHANNELS).map fun i =>
        updateVCell (LIPO_VREFINT * ADC_DIGITAL_SCALE_12B / refRaw) st.SampleCnt
          (st.CellScale.getD i 0) (st.Accu.getD i 0)).length := by
      simpa using hi
    rw [List.getD_eq_getElem _ _ hlen, List.getElem_map]
    rw [List.getElem_range]
    obtain ⟨hov1, hov2⟩ := hov i hi
    rw [updateVCell, LL_ADC_CALC_DATA_TO_VOLTAGE]
    rw [Nat.mod_eq_of_lt hov1,
      Nat.mul_comm (st.Accu.getD i 0 / st.SampleCnt)
        (LIPO_VREFINT * ADC_DIGITAL_SCALE_12B / refRaw)]
    rw [Nat.mod_eq_of_lt hov2]
  · exact ⟨{ refSt with
        VRefAdc := 1200
        VCell := List.replicate LIPO_ADCCHANNELS 600
        Accu := List.replicate LIPO_ADCCHANNELS 0
        Samples := 1
        SampleCnt := 0 }, by decide, by decide⟩

/-- Claim C4 witness: instantiation on the spec's literal round-trip input. -/
theorem update_formula_witness :
    ∃ st', update refSt 4095 = some st' ∧ st'.VCell.getD 0 0 = 600 ∧
      st'.Accu = List.replicate LIPO_ADCCHANNELS 0 := by
  obtain ⟨⟨st', heq, hvc, hac⟩, -⟩ :=
    update_formula refSt 4095 (by decide) (by decide) (by decide)
  refine ⟨st', heq, ?_, hac⟩
  rw [hvc 0 (by decide)]; decide

/-- Claim C9: for a calibration with nonzero measured voltage `m` (the
busy-sampled average of the cell's raw codes converted to mV with the
freshly re-measured reference and no prior scale, `measuredMv`),
`calibrate(cell, voltage)` stores
`CellScale[cell] = (voltage <<< LIPO_DENOMINATOR) / m` into the
caller-owned parameter structure.  The hypotheses require a valid cell
index, a nonzero reference reading, at least one busy-loop iteration, and
that `voltage << LIPO_DENOMINATOR` fits in 32 bits. -/
theorem calibrate_scale_formula (st : LiPoState) (cell voltage refRaw : Nat)
    (samples : List Nat) (tEnd : Nat)
    (hc : cell < LIPO_ADCCHANNELS) (hr : refRaw ≠ 0) (hn : samples ≠ [])
    (hlen : samples.length < U32) (hv : voltage <<< LIPO_DENOMINATOR < U32)
    (hm : measuredMv refRaw samples ≠ 0) :
    ∃ st', calibrate st cell voltage refRaw samples tEnd = some st' ∧
      st'.CellScale = st.CellScale.set cell
        ((voltage <<< LIPO_DENOMINATOR) / measuredMv refRaw samples) := by
  have hvlt : voltage < U32 := by
    have := Nat.shiftLeft_eq voltage LIPO_DENOMINATOR
    have h2 : 0 < 2 ^ LIPO_DENOMINATOR := Nat.pos_pow_of_pos _ (by decide)
    calc voltage ≤ voltage * 2 ^ LIPO_DENOMINATOR := Nat.le_mul_of_pos_right _ h2
    _ = voltage <<< LIPO_DENOMINATOR := (Nat.shiftLeft_eq _ _).symm
    _ < U32 := hv
  have hcnt : samples.length % U32 = samples.length := Nat.mod_eq_of_lt hlen
  have hcnt0 : ¬ samples.length % U32 = 0 := by
    rw [hcnt]
    exact fun h => hn (List.length_eq_zero.mp h)
  have hm' : LL_ADC_CALC_DATA_TO_VOLTAGE
      (LIPO_VREFINT * ADC_DIGITAL_SCALE_12B / refRaw)
      (calAccu samples / (samples.length % U32)) ≠ 0 := hm
  have hmod : ((voltage % U32) <<< LIPO_DENOMINATOR) % U32 =
      voltage <<< LIPO_DENOMINATOR := by
    rw [Nat.mod_eq_of_lt hvlt, Nat.mod_eq_of_lt hv]
  refine ⟨{ st with
      VRefAdc := LIPO_VREFINT * ADC_DIGITAL_SCALE_12B / refRaw
      CellScale := st.CellScale.set cell
        ((voltage <<< LIPO_DENOMINATOR) / measuredMv refRaw samples)
      Accu := List.replicate LIPO_ADCCHANNELS 0
      SampleCnt := 0
      LastTick := tEnd % U32 }, ?_, rfl⟩
  simp only [calibrate, updateVref, if_neg hr, if_neg (Nat.not_le.mpr hc),
    if_neg hcnt0, if_neg hm', hmod]
  rfl

/-- Claim C9 witness: calibrating cell 0 at 4200 mV with constant raw code
2048 and reference raw 4095 measures 600 mV and stores
`4200 * 2048 / 600 = 14336`. -/
theorem calibrate_scale_formula_witness :
    ∃ st', calibrate initSt6 0 4200 4095 [2048] 300 = some st' ∧
      st'.CellScale = (List.replicate LIPO_ADCCHANNELS 2048).set 0 14336 := by
  obtain ⟨st', heq, hcs⟩ := calibrate_scale_formula initSt6 0 4200 4095 [2048] 300
    (by decide) (by decide) (by decide) (by decide) (by decide) (by decide)
  refine ⟨st', heq, ?_⟩
  rw [hcs]; decide

/-- Claim C10: after a successful `calibrate`, all accumulators (not only
the calibrated channel's) are 0, the sample counter is 0, and `LastTick` is
the completion time — discarding any in-progress window — while the stored
cumulative voltages, the latched sample count and the `getSamples` reading
are unchanged. -/
theorem calibrate_frame (st : LiPoState) (cell voltage refRaw : Nat)
    (samples : List Nat) (tEnd : Nat)
    (hc : cell < LIPO_ADCCHANNELS) (hr : refRaw ≠ 0) (hn : samples ≠ [])
    (hlen : samples.length < U32) (htEnd : tEnd < U32)
    (hm : measuredMv refRaw samples ≠ 0) :
    ∃ st', calibrate st cell voltage refRaw samples tEnd = some st' ∧
      st'.Accu = List.replicate LIPO_ADCCHANNELS 0 ∧ st'.SampleCnt = 0 ∧
      st'.LastTick = tEnd ∧ st'.VCell = st.VCell ∧ st'.Samples = st.Samples ∧
      getSamples st' = getSamples st := by
  have hcnt0 : ¬ samples.length % U32 = 0 := by
    rw [Nat.mod_eq_of_lt hlen]
    exact fun h => hn (List.length_eq_zero.mp h)
  have hm' : LL_ADC_CALC_DATA_TO_VOLTAGE
      (LIPO_VREFINT * ADC_DIGITAL_SCALE_12B / refRaw)
      (calAccu samples / (samples.length % U32)) ≠ 0 := hm
  refine ⟨{ st with
      VRefAdc := LIPO_VREFINT * ADC_DIGITAL_SCALE_12B / refRaw
      CellScale := st.CellScale.set cell
        ((((voltage % U32) <<< LIPO_DENOMINATOR) % U32) /
          measuredMv refRaw samples)
      Accu := List.replicate LIPO_ADCCHANNELS 0
      SampleCnt := 0
      LastTick := tEnd % U32 },
    ?_, rfl, rfl, Nat.mod_eq_of_lt htEnd, rfl, rfl, rfl⟩
  simp only [calibrate, updateVref, if_neg hr, if_neg (Nat.not_le.mpr hc),
    if_neg hcnt0, if_neg hm']
  rfl

/-- Claim C10 witness: the calibration of the C9 witness resets the window
state and leaves `VCell` and `Samples` untouched. -/
theorem calibrate_frame_witness :
    ∃ st', calibrate exSt 1 3300 4095 [2048, 2048] 500 = some st' ∧
      st'.Accu = List.replicate LIPO_ADCCHANNELS 0 ∧ st'.SampleCnt = 0 ∧
      st'.LastTick = 500 ∧ st'.VCell = [1000, 1900, 2800, 0, 0, 0] := by
  obtain ⟨st', heq, hac, hsc, hlt, hvc, -, -⟩ := calibrate_frame exSt 1 3300 4095
    [2048, 2048] 500 (by decide) (by decide) (by decide) (by decide) (by decide)
    (by decide)
  exact ⟨st', heq, hac, hsc, hlt, by rw [hvc]; decide⟩

/-! ### Characterization of the cell-counting scan -/

/-- A channel counts as a valid connected cell when its derived per-cell
voltage reaches the `LIPO_VCELL_MIN` threshold. -/
def validCell (st : LiPoState) (i : Nat) : Bool :=
  decide (LIPO_VCELL_MIN ≤ vcellRel st i)

/-- Result of the `getNumCells` scan over an index list once `done` has
been set: `-1` as soon as any remaining channel is valid. -/
def brokenTail (st : LiPoState) (l : List Nat) : Bool := l.any (validCell st)

/-- Whether the `getNumCells` scan over an index list hits the
valid-after-invalid inconsistency. -/
def brokenList (st : LiPoState) : List Nat → Bool
  | [] => false
  | i :: rest =>
    if validCell st i then brokenList st rest else brokenTail st rest

/-- Number of leading valid channels in an index list. -/
def countList (st : LiPoState) : List Nat → Int
  | [] => 0
  | i :: rest => if validCell st i then 1 + countList st rest else 0

/-- The `done = true` phase of the `getNumCells` loop. -/
theorem numCellsLoop_done (st : LiPoState) (hwf : wf st) :
    ∀ l : List Nat, (∀ i ∈ l, i < LIPO_ADCCHANNELS) → ∀ c : Int,
      numCellsLoop st l c true =
        if brokenTail st l then some (-1) else some c := by
  intro l
  induction l with
  | nil => intro _ c; simp [numCellsLoop, brokenTail]
  | cons i rest ih =>
    intro hmem c
    have hi : i < LIPO_ADCCHANNELS := hmem i (List.mem_cons_self i rest)
    simp only [numCellsLoop, getCell_rel st hwf i hi]
    by_cases hv : LIPO_VCELL_MIN ≤ vcellRel st i
    · simp [hv, brokenTail, validCell]
    · rw [if_neg hv, ih (fun j hj => hmem j (List.mem_cons_of_mem i hj)) c]
      simp [brokenTail, validCell, hv]

/-- The `done = false` phase of the `getNumCells` loop: returns `-1` when
the list is inconsistent and otherwise adds the leading valid count. -/
theorem numCellsLoop_scan (st : LiPoState) (hwf : wf st) :
    ∀ l : List Nat, (∀ i ∈ l, i < LIPO_ADCCHANNELS) → ∀ c : Int,
      numCellsLoop st l c false =
        if brokenList st l then some (-1) else some (c + countList st l) := by
  intro l
  induction l with
  | nil => intro _ c; simp [numCellsLoop, brokenList, countList]
  | cons i rest ih =>
    intro hmem c
    have hi : i < LIPO_ADCCHANNELS := hmem i (List.mem_cons_self i rest)
    have hrest : ∀ j ∈ rest, j < LIPO_ADCCHANNELS :=
      fun j hj => hmem j (List.mem_cons_of_mem i hj)
    simp only [numCellsLoop, getCell_rel st hwf i hi]
    by_cases hv : LIPO_VCELL_MIN ≤ vcellRel st i
    · have hvb : validCell st i = true := by simp [validCell, hv]
      rw [if_pos hv, if_pos trivial, ih hrest (c + 1)]
      simp only [brokenList, countList, hvb, if_true]
      by_cases hb : brokenList st rest = true
      · rw [if_pos hb, if_pos hb]
      · rw [if_neg hb, if_neg hb]
        congr 1
        omega
    · have hvb : validCell st i = false := by simp [validCell, hv]
      rw [if_neg hv, numCellsLoop_done st hwf rest hrest c]
      simp [brokenList, countList, hvb]

/-- The inconsistency detected by `brokenList` on a contiguous index range
is exactly "some valid channel strictly after some invalid channel". -/
theorem brokenList_range' (st : LiPoState) :
    ∀ n s, brokenList st (List.range' s n) = true ↔
      ∃ k, k < n ∧ validCell st (s + k) = true ∧
        ∃ j, j < k ∧ validCell st (s + j) = false := by
  intro n
  induction n with
  | zero =>
    intro s
    simp [brokenList]
  | succ n ih =>
    intro s
    rw [List.range'_succ]
    by_cases hv : validCell st s = true
    · rw [brokenList, if_pos hv, ih (s + 1)]
      constructor
      · rintro ⟨k, hk, hval, j, hj, hinv⟩
        refine ⟨k + 1, by omega, ?_, j + 1, by omega, ?_⟩
        · have h1 : s + (k + 1) = s + 1 + k := by omega
          rw [h1]; exact hval
        · have h1 : s + (j + 1) = s + 1 + j := by omega
          rw [h1]; exact hinv
      · rintro ⟨k, hk, hval, j, hj, hinv⟩
        cases j with
        | zero =>
          rw [Nat.add_zero, hv] at hinv
          cases hinv
        | succ j' =>
          cases k with
          | zero => omega
          | succ k' =>
            refine ⟨k', by omega, ?_, j', by omega, ?_⟩
            · have h1 : s + 1 + k' = s + (k' + 1) := by omega
              rw [h1]; exact hval
            · have h1 : s + 1 + j' = s + (j' + 1) := by omega
              rw [h1]; exact hinv
    · have hvf : validCell st s = false := by
        revert hv; cases validCell st s <;> simp
      rw [brokenList, if_neg (by simp [hvf])]
      constructor
      · intro h
        rw [brokenTail, List.any_eq_true] at h
        obtain ⟨x, hx, hval⟩ := h
        rw [List.mem_range'_1] at hx
        refine ⟨x - s, by omega, ?_, 0, by omega, ?_⟩
        · have h1 : s + (x - s) = x := by omega
          rw [h1]; exact hval
        · rw [Nat.add_zero]; exact hvf
      · rintro ⟨k, hk, hval, j, hj, -⟩
        rw [brokenTail, List.any_eq_true]
        exact ⟨s + k, List.mem_range'_1.mpr ⟨by omega, by omega⟩, hval⟩

/-- The count accumulated by the scan is the length of the leading valid
segment. -/
theorem countList_takeWhile (st : LiPoState) :
    ∀ l : List Nat,
      countList st l = ((l.takeWhile (validCell st)).length : Int) := by
  intro l
  induction l with
  | nil => simp [countList]
  | cons i rest ih =>
    rw [countList, List.takeWhile_cons]
    by_cases hv : validCell st i = true
    · rw [if_pos hv, if_pos hv, ih]
      simp only [List.length_cons]
      push_cast
      omega
    · rw [if_neg hv, if_neg hv]
      simp [countList]

/-- Every index position inside the taken prefix of a contiguous range
satisfies the predicate. -/
theorem takeWhile_range'_valid (p : Nat → Bool) :
    ∀ n s k, k < ((List.range' s n).takeWhile p).length → p (s + k) = true := by
  intro n
  induction n with
  | zero =>
    intro s k h
    simp [List.takeWhile] at h
  | succ n ih =>
    intro s k h
    rw [List.range'_succ, List.takeWhile_cons] at h
    by_cases hp : p s = true
    · rw [if_pos hp] at h
      cases k with
      | zero => rw [Nat.add_zero]; exact hp
      | succ k' =>
        have h' := ih (s + 1) k' (by simpa using h)
        have h1 : s + (k' + 1) = s + 1 + k' := by omega
        rw [h1]; exact h'
    · rw [if_neg hp] at h
      simp at h

/-- The "inconsistent chain" condition of the scan: some channel whose
per-cell voltage passes the threshold appears strictly after a channel
that fails it. -/
def chainBroken (st : LiPoState) : Prop :=
  ∃ k, k < LIPO_ADCCHANNELS ∧ LIPO_VCELL_MIN ≤ vcellRel st k ∧
    ∃ j, j < k ∧ vcellRel st j < LIPO_VCELL_MIN

instance (st : LiPoState) : Decidable (chainBroken st) := by
  unfold chainBroken; infer_instance

/-- Full characterization of `getNumCells` on well-formed states. -/
theorem getNumCells_char (st : LiPoState) (hwf : wf st) :
    getNumCells st = some (if chainBroken st then -1
      else (((List.range LIPO_ADCCHANNELS).takeWhile (validCell st)).length :
        Int)) := by
  rw [getNumCells,
    numCellsLoop_scan st hwf _ (fun i hi => List.mem_range.mp hi) 0]
  have hiff : brokenList st (List.range LIPO_ADCCHANNELS) = true ↔
      chainBroken st := by
    rw [List.range_eq_range', brokenList_range' st LIPO_ADCCHANNELS 0]
    unfold chainBroken validCell
    simp [Nat.not_le, Nat.lt_iff_add_one_le]
  by_cases hcb : chainBroken st
  · rw [if_pos (hiff.mpr hcb), if_pos hcb]
  · rw [if_neg (fun h => hcb (hiff.mp h)), if_neg hcb,
      countList_takeWhile st, Int.zero_add]

/-- On a positive count, all counted cells pass the threshold and the count
is at most the channel count. -/
theorem getNumCells_pos_valid (st : LiPoState) (hwf : wf st) (c : Int)
    (hc : getNumCells st = some c) (hpos : 0 < c) :
    c.toNat ≤ LIPO_ADCCHANNELS ∧
      ∀ i, i < c.toNat → LIPO_VCELL_MIN ≤ vcellRel st i := by
  have h := getNumCells_char st hwf
  rw [hc] at h
  by_cases hcb : chainBroken st
  · rw [if_pos hcb] at h
    simp at h
    omega
  · rw [if_neg hcb] at h
    have hc' : c = (((List.range LIPO_ADCCHANNELS).takeWhile
        (validCell st)).length : Int) := by
      simpa using h
    have hle : ((List.range LIPO_ADCCHANNELS).takeWhile
        (validCell st)).length ≤ LIPO_ADCCHANNELS := by
      have := (List.takeWhile_sublist (l := List.range LIPO_ADCCHANNELS)
        (validCell st)).length_le
      simpa using this
    refine ⟨by omega, fun i hi => ?_⟩
    have hilt : i < ((List.range LIPO_ADCCHANNELS).takeWhile
        (validCell st)).length := by omega
    have hp := takeWhile_range'_valid (validCell st) LIPO_ADCCHANNELS 0 i
      (by rw [← List.range_eq_range']; exact hilt)
    rw [Nat.zero_add] at hp
    simpa [validCell] using hp

/-- Claim C5: `getNumCells` scans channels from index 0 upward, counting a
channel as valid when its derived per-cell voltage is at least
`LIPO_VCELL_MIN` (250 mV); it returns the length of the initial valid
segment (0 when no cell is valid), and it returns the sentinel `-1` exactly
when some valid channel appears after a channel that failed the
threshold. -/
theorem getNumCells_spec (st : LiPoState) (hwf : wf st) :
    (¬ chainBroken st → getNumCells st =
      some (((List.range LIPO_ADCCHANNELS).takeWhile
        (validCell st)).length : Int)) ∧
    (getNumCells st = some (-1) ↔ chainBroken st) := by
  have h := getNumCells_char st hwf
  by_cases hcb : chainBroken st
  · rw [if_pos hcb] at h
    exact ⟨fun hn => absurd hcb hn, by simp [h, hcb]⟩
  · rw [if_neg hcb] at h
    refine ⟨fun _ => h, ?_, fun hcb' => absurd hcb' hcb⟩
    intro he
    rw [he] at h
    have h' : (-1 : Int) = (((List.range LIPO_ADCCHANNELS).takeWhile
        (validCell st)).length : Int) := Option.some.inj h
    omega

/-- Claim C5 witness: the healthy 3-cell state has an unbroken chain and
exactly 3 detected cells. -/
theorem getNumCells_spec_witness :
    wf exSt ∧ ¬ chainBroken exSt ∧ getNumCells exSt = some 3 := by
  refine ⟨by decide, by decide, ?_⟩
  rw [(getNumCells_spec exSt (by decide)).1 (by decide)]
  decide

/-- On a well-formed state every derived per-cell voltage fits in 32
bits. -/
theorem vcellRel_lt (st : LiPoState) (hwf : wf st) (i : Nat) :
    vcellRel st i < U32 := by
  have hgetD : ∀ j, st.VCell.getD j 0 < U32 := by
    intro j
    by_cases hj : j < st.VCell.length
    · rw [List.getD_eq_getElem _ _ hj]
      exact hwf.2.2.2.1 _ (List.getElem_mem hj)
    · rw [List.getD_eq_default _ _ (by omega)]
      decide
  unfold vcellRel
  by_cases h0 : i = 0
  · rw [if_pos h0]; exact hgetD 0
  · rw [if_neg h0]
    by_cases hle : st.VCell.getD (i - 1) 0 ≤ st.VCell.getD i 0
    · rw [if_pos hle]
      have := hgetD i
      omega
    · rw [if_neg hle]
      decide

/-- Behaviour of the `getMinCell` loop on a list of valid channels: it
succeeds and returns the minimum of the start value and the per-cell
voltages it visited. -/
theorem minCellLoop_spec (st : LiPoState) (hwf : wf st) :
    ∀ l : List Nat,
      (∀ i ∈ l, i < LIPO_ADCCHANNELS ∧ LIPO_VCELL_MIN ≤ vcellRel st i) →
      ∀ v : Nat, ∃ m, minCellLoop st l v = some m ∧
        (m = v ∨ ∃ i ∈ l, m = vcellRel st i) ∧ m ≤ v ∧
        ∀ i ∈ l, m ≤ vcellRel st i := by
  intro l
  induction l with
  | nil =>
    intro _ v
    exact ⟨v, rfl, Or.inl rfl, Nat.le_refl v, by simp⟩
  | cons i rest ih =>
    intro hmem v
    obtain ⟨hi6, hival⟩ := hmem i (List.mem_cons_self i rest)
    have hrest : ∀ j ∈ rest,
        j < LIPO_ADCCHANNELS ∧ LIPO_VCELL_MIN ≤ vcellRel st j :=
      fun j hj => hmem j (List.mem_cons_of_mem i hj)
    simp only [minCellLoop, getCell_rel st hwf i hi6]
    rw [if_pos hival]
    obtain ⟨m, heq, hach, hlev, hall⟩ := ih hrest (min v (vcellRel st i))
    refine ⟨m, heq, ?_, Nat.le_trans hlev (Nat.min_le_left v _), ?_⟩
    · rcases hach with hm | ⟨j, hj, hmj⟩
      · rcases Nat.le_total v (vcellRel st i) with hle | hle
        · exact Or.inl (by rw [hm]; exact Nat.min_eq_left hle)
        · exact Or.inr ⟨i, List.mem_cons_self i rest,
            by rw [hm]; exact Nat.min_eq_right hle⟩
      · exact Or.inr ⟨j, List.mem_cons_of_mem i hj, hmj⟩
    · intro j hj
      rcases List.mem_cons.mp hj with rfl | hj'
      · exact Nat.le_trans hlev (Nat.min_le_right v _)
      · exact hall j hj'

/-- Claim C7: if `getNumCells` returns the error sentinel or 0,
`getMinCell` returns 0; with a detected count `c > 0` it returns the
smallest per-cell voltage among cells `0 .. c-1`, which is at least the
`LIPO_VCELL_MIN` threshold. -/
theorem getMinCell_spec (st : LiPoState) (hwf : wf st) :
    (∀ c : Int, getNumCells st = some c → c ≤ 0 →
      getMinCell st = some 0) ∧
    (∀ c : Int, getNumCells st = some c → 0 < c →
      ∃ m, getMinCell st = some m ∧ LIPO_VCELL_MIN ≤ m ∧
        (∃ i, i < c.toNat ∧ m = vcellRel st i) ∧
        ∀ i, i < c.toNat → m ≤ vcellRel st i) := by
  constructor
  · intro c hc hle
    simp only [getMinCell, hc]
    rw [if_neg (by omega)]
  · intro c hc hpos
    obtain ⟨hle6, hvalid⟩ := getNumCells_pos_valid st hwf c hc hpos
    have hmem : ∀ i ∈ List.range c.toNat,
        i < LIPO_ADCCHANNELS ∧ LIPO_VCELL_MIN ≤ vcellRel st i := by
      intro i hi
      have hi' := List.mem_range.mp hi
      exact ⟨by omega, hvalid i hi'⟩
    obtain ⟨m, heq, hach, hlev, hall⟩ :=
      minCellLoop_spec st hwf (List.range c.toNat) hmem UINT32_MAX
    have hU : UINT32_MAX = 2 ^ 32 - 1 := rfl
    refine ⟨m, ?_, ?_, ?_, fun i hi => hall i (List.mem_range.mpr hi)⟩
    · simp only [getMinCell, hc]
      rw [if_pos hpos]
      exact heq
    · rcases hach with rfl | ⟨i, hi, rfl⟩
      · decide
      · exact (hmem i hi).2
    · rcases hach with rfl | ⟨i, hi, rfl⟩
      · have h0 : 0 < c.toNat := by omega
        have hb := vcellRel_lt st hwf 0
        have hm0 := hall 0 (List.mem_range.mpr h0)
        have hUlt : U32 = 2 ^ 32 := rfl
        exact ⟨0, h0, by omega⟩
      · exact ⟨i, List.mem_range.mp hi, rfl⟩

/-- Claim C7 witness: on the healthy 3-cell state the minimum per-cell
voltage is 900 mV and passes the threshold. -/
theorem getMinCell_spec_witness :
    ∃ m, getMinCell exSt = some m ∧ LIPO_VCELL_MIN ≤ m ∧ m = 900 := by
  obtain ⟨m, heq, hmin, -, -⟩ :=
    (getMinCell_spec exSt (by decide)).2 3 (by decide) (by decide)
  have h900 : getMinCell exSt = some 900 := by decide
  rw [heq] at h900
  exact ⟨m, heq, hmin, Option.some.inj h900⟩

/-! ### Reachability and the sample-counter wraparound -/

/-- The state transformation of one `task` call that does not cross the
gate boundary, at time 0 with the all-zero ADC oracle. -/
def stepSilent (st : LiPoState) : LiPoState :=
  { st with SampleCnt := (st.SampleCnt + 1) % U32, Accu := sampleAccu st adc0 }

/-- States of the monitor reachable through construction and `task`
calls. -/
inductive Reachable : LiPoState → Prop where
  | init (cellScale : List Nat) : Reachable (mkLiPo cellScale)
  | step (st : LiPoState) (t : Nat) (adc : Nat → Nat) (refRaw : Nat)
      (b : Bool) (st' : LiPoState) : Reachable st →
      task st t adc refRaw = some (b, st') → Reachable st'

/-- A `task` call at time 0 on a state whose gate window started at time 0
with the default gate time does not cross the boundary and performs exactly
the silent step. -/
theorem task_silent (st : LiPoState) (hlt : st.LastTick = 0)
    (hgt : st.GateTime = LIPO_DEFAULT_GATETIME) :
    task st 0 adc0 4095 = some (false, stepSilent st) := by
  have hcond : ¬ (st.GateTime ≤ usub32 0 st.LastTick) := by
    rw [hlt, hgt]; decide
  simp only [task, if_neg hcond]
  rfl

/-- Iterating the silent step from a fresh monitor only advances the
(wrapping) sample counter and keeps the accumulators at zero. -/
theorem stepSilent_iterate (k : Nat) :
    (stepSilent^[k] initSt6).SampleCnt = k % U32 ∧
    (stepSilent^[k] initSt6).Accu = initSt6.Accu ∧
    (stepSilent^[k] initSt6).LastTick = 0 ∧
    (stepSilent^[k] initSt6).GateTime = LIPO_DEFAULT_GATETIME := by
  induction k with
  | zero => exact ⟨rfl, rfl, rfl, rfl⟩
  | succ k ih =>
    obtain ⟨ih1, ih2, ih3, ih4⟩ := ih
    rw [Function.iterate_succ_apply']
    refine ⟨?_, ?_, ?_, ?_⟩
    · show ((stepSilent^[k] initSt6).SampleCnt + 1) % U32 = (k + 1) % U32
      rw [ih1]
      exact Nat.mod_add_mod k U32 1
    · show sampleAccu (stepSilent^[k] initSt6) adc0 = initSt6.Accu
      simp only [sampleAccu, ih2]
      decide
    · show (stepSilent^[k] initSt6).LastTick = 0
      exact ih3
    · show (stepSilent^[k] initSt6).GateTime = LIPO_DEFAULT_GATETIME
      exact ih4

/-- Every iterate of the silent step is a reachable monitor state. -/
theorem reachable_stepSilent_iterate (k : Nat) :
    Reachable (stepSilent^[k] initSt6) := by
  induction k with
  | zero => exact Reachable.init (List.replicate LIPO_ADCCHANNELS 2048)
  | succ k ih =>
    rw [Function.iterate_succ_apply']
    have hf := stepSilent_iterate k
    exact Reachable.step _ 0 adc0 4095 false _ ih
      (task_silent _ hf.2.2.1 hf.2.2.2)

/-- The reachable state obtained from a fresh monitor after `2^32 - 1`
poll calls inside a single gate window. -/
def badSt : LiPoState := stepSilent^[U32 - 1] initSt6

/-- A boundary-crossing `task` call on a state whose sample counter wraps
to zero hits the division by zero inside `update`. -/
theorem task_gate_wrap (st : LiPoState)
    (hg : st.GateTime ≤ usub32 250 st.LastTick)
    (hwrap : (st.SampleCnt + 1) % U32 = 0) :
    task st 250 adc0 4095 = none := by
  simp [task, update, updateVref, hg, hwrap]

/-- Claim C8 counterexample: `SampleCnt` is a wrapping `uint32_t`, so a
window that accumulates `2^32 - 1` poll calls reaches a monitor state in
which the next boundary-crossing `task` call increments the counter to 0
and `update` divides `Accu[i] / SampleCnt` by zero (undefined behavior,
`none` in the model) — even with a perfectly good reference reading. -/
theorem task_sampleCnt_wrap_cex :
    Reachable badSt ∧ badSt.GateTime ≤ usub32 250 badSt.LastTick ∧
    (badSt.SampleCnt + 1) % U32 = 0 ∧ (4095 : Nat) ≠ 0 ∧
    task badSt 250 adc0 4095 = none := by
  have hf := stepSilent_iterate (U32 - 1)
  have hsc : badSt.SampleCnt = U32 - 1 := by
    have h1 : badSt.SampleCnt = (U32 - 1) % U32 := hf.1
    rw [h1]
    exact Nat.mod_eq_of_lt (by decide)
  have hlt : badSt.LastTick = 0 := hf.2.2.1
  have hgt : badSt.GateTime = LIPO_DEFAULT_GATETIME := hf.2.2.2
  have hg : badSt.GateTime ≤ usub32 250 badSt.LastTick := by
    rw [hgt, hlt]; decide
  have hwrap : (badSt.SampleCnt + 1) % U32 = 0 := by
    rw [hsc]
    have h1 : U32 - 1 + 1 = U32 := by
      have h2 : 0 < U32 := by decide
      omega
    rw [h1, Nat.mod_self]
  exact ⟨reachable_stepSilent_iterate _, hg, hwrap, by decide,
    task_gate_wrap badSt hg hwrap⟩

/-- Claim C8 amended: whenever finalize runs from `task` after fewer than
`2^32 - 1` in-window sample increments, the divisor used by the averaging
is the incremented counter `SampleCnt + 1 ≥ 1` (latched into `Samples`), so
no division by zero occurs. -/
theorem task_finalize_divisor_pos (st : LiPoState) (t : Nat)
    (adc : Nat → Nat) (refRaw : Nat) (hcnt : st.SampleCnt + 1 < U32)
    (hr : refRaw ≠ 0) (hg : st.GateTime ≤ usub32 t st.LastTick) :
    ∃ st', task st t adc refRaw = some (true, st') ∧
      st'.Samples = st.SampleCnt + 1 ∧ 0 < st'.Samples := by
  have hmod : (st.SampleCnt + 1) % U32 = st.SampleCnt + 1 :=
    Nat.mod_eq_of_lt hcnt
  have hs : ¬ (st.SampleCnt + 1) % U32 = 0 := by
    rw [hmod]; omega
  refine ⟨{ st with
      LastTick := t % U32
      SampleCnt := 0
      Samples := (st.SampleCnt + 1) % U32
      VRefAdc := LIPO_VREFINT * ADC_DIGITAL_SCALE_12B / refRaw
      Accu := List.replicate LIPO_ADCCHANNELS 0
      VCell := (List.range LIPO_ADCCHANNELS).map fun i =>
        updateVCell (LIPO_VREFINT * ADC_DIGITAL_SCALE_12B / refRaw)
          ((st.SampleCnt + 1) % U32) (st.CellScale.getD i 0)
          ((sampleAccu st adc).getD i 0) },
    ?_, hmod, by show 0 < (st.SampleCnt + 1) % U32; rw [hmod]; omega⟩
  simp only [task, if_pos hg, update, updateVref, if_neg hr, if_neg hs]

/-- Claim C8 amended witness: a fresh monitor polled once at the boundary
finalizes with divisor 1. -/
theorem task_finalize_divisor_pos_witness :
    ∃ st', task initSt6 250 adc0 4095 = some (true, st') ∧
      st'.Samples = 1 ∧ 0 < st'.Samples := by
  obtain ⟨st', heq, h1, h2⟩ := task_finalize_divisor_pos initSt6 250 adc0 4095
    (by decide) (by decide) (by decide)
  exact ⟨st', heq, by rw [h1]; decide, h2⟩

end LiPo
